import Mathlib

/-!
# Verification of `serde-file-value` (`src/de.rs`, `src/lib.rs`)

The crate is a proxy pair (`Deserializer` / `Visitor`) interposed between a
serde deserializer and a visitor.  String scalars of the exact form
`${file:P}` are replaced by the contents of the file at `P`, read at decode
time; a listener `FnMut(&Path, &io::Result<Vec<u8>>)` is called once per
matched reference with the read result.  Every other callback is forwarded
unchanged, with nested deserializers / accessors / seeds re-wrapped so the
interception recurses.

This file is a shallow embedding: documents are trees of the shapes the
visitor protocol distinguishes, the wrapped (format) decoder is the canonical
self-describing decoder driving the corresponding `visit_*` method for each
node, and the wrapped (downstream) visitor is the canonical value builder
that records which entry point delivered each scalar.  Decoding returns the
`Result` together with the sequence of listener notifications.
-/

set_option maxHeartbeats 1000000
set_option autoImplicit false

namespace SerdeFileValue

/-- Strings are modelled as lists of characters (Rust `str` / `String`). -/
abbrev Str := List Char

/-- An I/O error (`std::io::Error`), abstracted to its display text. -/
structure IOErr where
  msg : Str
deriving DecidableEq, Repr

/-- Bytes (`Vec<u8>`): byte values as naturals. -/
abbrev Bytes := List Nat

/-- `io::Result<Vec<u8>>`, the result of `fs::read`. -/
inductive IORes where
  | ok (contents : Bytes)
  | err (e : IOErr)
deriving DecidableEq, Repr

/-- The filesystem visible to `fs::read`: each path either holds bytes or
fails with an I/O error. -/
def FS := Str → IORes

/-- One listener invocation: `(self.listener)(path.as_ref(), &value)` with
`value : io::Result<Vec<u8>>` (`src/de.rs` line 109). -/
structure Notification where
  path : Str
  result : IORes
deriving DecidableEq, Repr

/-- Decode errors: `custom` is an error fabricated by `expand_str` via
`E::custom`; `underlying` is an error produced by the wrapped decoder and
returned verbatim by the proxy (`self.de.$name(...)` in
`forward_deserialize!`, `src/de.rs` lines 25–38). -/
inductive DeError where
  | custom (msg : Str)
  | underlying (msg : Str)
deriving DecidableEq, Repr

/-- `str::strip_prefix`: `some r` iff the string is `p ++ r`. -/
def strip_prefix : Str → Str → Option Str
  | [], s => some s
  | _ :: _, [] => none
  | p :: ps, c :: cs => if c = p then strip_prefix ps cs else none

/-- `str::strip_suffix(c)`: `some r` iff the string is `r ++ [c]`. -/
def strip_suffix (c : Char) (s : Str) : Option Str :=
  match s.reverse with
  | [] => none
  | d :: rest => if d = c then some rest.reverse else none

/-- The literal prefix `${file:` of the reference pattern (braces written as
hex escapes). -/
def refPrefix : Str := "$\x7bfile:".toList

/-- The literal suffix `}` of the reference pattern. -/
def refSuffix : Char := '\x7d'

/-- The reference string `${file:` ++ P ++ `}`. -/
def refStr (P : Str) : Str := refPrefix ++ P ++ [refSuffix]

/-- The file-reference matcher, exactly
`s.strip_prefix("${file:").and_then(|s| s.strip_suffix('}'))`
(`src/de.rs` line 106). -/
def matchRef (s : Str) : Option Str :=
  ( strip_prefix refPrefix s).bind (strip_suffix refSuffix)

/-- Whether a byte is a UTF-8 continuation byte (`0x80..=0xBF`). -/
def isCont (b : Nat) : Bool := 0x80 ≤ b && b ≤ 0xBF

/-- UTF-8 decoding of a byte sequence, as validated by `String::from_utf8`
(std's `run_utf8_validation` table: ASCII, 2-byte `C2..DF`, 3-byte with the
`E0`/`ED` overlong and surrogate exclusions, 4-byte with the `F0`/`F4`
range exclusions).  `some` exactly on valid UTF-8, returning the decoded
characters.  `String::from_utf8` is std, not this crate; it is embedded
here because `expand_str` calls it on the bytes read from the file. -/
def utf8Decode : Bytes → Option Str
  | [] => some []
  | b0 :: rest =>
    if b0 ≤ 0x7F then
      (utf8Decode rest).map (fun cs => Char.ofNat b0 :: cs)
    else if 0xC2 ≤ b0 && b0 ≤ 0xDF then
      match rest with
      | b1 :: rest2 =>
        if isCont b1 then
          (utf8Decode rest2).map (fun cs =>
            Char.ofNat ((b0 % 0x20) * 0x40 + b1 % 0x40) :: cs)
        else none
      | [] => none
    else if 0xE0 ≤ b0 && b0 ≤ 0xEF then
      match rest with
      | b1 :: b2 :: rest3 =>
        if (if b0 = 0xE0 then 0xA0 ≤ b1 && b1 ≤ 0xBF
            else if b0 = 0xED then 0x80 ≤ b1 && b1 ≤ 0x9F
            else isCont b1) && isCont b2 then
          (utf8Decode rest3).map (fun cs =>
            Char.ofNat ((b0 % 0x10) * 0x1000 + (b1 % 0x40) * 0x40 + b2 % 0x40) :: cs)
        else none
      | _ => none
    else if 0xF0 ≤ b0 && b0 ≤ 0xF4 then
      match rest with
      | b1 :: b2 :: b3 :: rest4 =>
        if (if b0 = 0xF0 then 0x90 ≤ b1 && b1 ≤ 0xBF
            else if b0 = 0xF4 then 0x80 ≤ b1 && b1 ≤ 0x8F
            else isCont b1) && isCont b2 && isCont b3 then
          (utf8Decode rest4).map (fun cs =>
            Char.ofNat ((b0 % 0x8) * 0x40000 + (b1 % 0x40) * 0x1000 +
              (b2 % 0x40) * 0x40 + b3 % 0x40) :: cs)
        else none
      | _ => none
    else none

/-- The display text of `std::string::FromUtf8Error` (the `{e}` part of
`format_args!("error parsing file {path}: {e}")`).  Its exact wording comes
from the standard library, outside this repository; modelled as a fixed
descriptor of the interpretation failure. -/
def fromUtf8ErrMsg (_contents : Bytes) : Str :=
  "invalid utf-8 sequence".toList

/-- The message built at `src/de.rs` line 117:
`format_args!("error reading file {path}: {e}")`. -/
def readErrMsg (path : Str) (e : IOErr) : Str :=
  "error reading file ".toList ++ path ++ ": ".toList ++ e.msg

/-- The message built at `src/de.rs` lines 112–114:
`format_args!("error parsing file {path}: {e}")`. -/
def parseErrMsg (path : Str) (contents : Bytes) : Str :=
  "error parsing file ".toList ++ path ++ ": ".toList ++ fromUtf8ErrMsg contents

/-- `Visitor::expand_str` (`src/de.rs` lines 102–122).  Returns the
`Result<Option<String>, E>` together with the listener notifications made
during the call:
* no match: `Ok(None)`, no notification;
* match: read the file, notify the listener exactly once with the path and
  the read result, then on success convert via `String::from_utf8`
  (failure becomes `E::custom("error parsing file {path}: {e}")`), on read
  failure return `E::custom("error reading file {path}: {e}")`. -/
def expand_str (fs : FS) (s : Str) : Except DeError (Option Str) × List Notification :=
  match matchRef s with
  | none => (.ok none, [])
  | some path =>
    let value := fs path
    let notifs : List Notification := [⟨path, value⟩]
    match value with
    | .ok contents =>
      match utf8Decode contents with
      | some text => (.ok (some text), notifs)
      | none => (.error (.custom (parseErrMsg path contents)), notifs)
    | .err e => (.error (.custom (readErrMsg path e)), notifs)

/-- The three string-delivery entry points of the serde visitor protocol:
`visit_borrowed_str` (borrowed from the document), `visit_str`
(transient), `visit_string` (owned). -/
inductive StrShape where
  | borrowed
  | transient
  | owned
deriving DecidableEq, Repr

mutual
/-- Documents, one constructor per shape the visitor protocol distinguishes:
the canonical self-describing wrapped decoder drives the corresponding
`visit_*` method for each node.  `strD` records the delivery shape the
wrapped decoder uses for the string.  `errD` is a point at which the
wrapped decoder itself fails (e.g. a syntax error in the document): the
proxy returns such errors verbatim (`self.de.$name(...)` in
`forward_deserialize!`).  `enumD` carries the variant tag (decoded through
`variant_seed`, hence through a proxied seed) and the variant payload. -/
inductive Doc where
  | boolD (b : Bool)
  | intD (n : Int)
  | floatD (bits : Nat)
  | charD (c : Char)
  | strD (sh : StrShape) (s : Str)
  | bytesD (bs : Bytes)
  | unitD
  | noneD
  | someD (d : Doc)
  | newtypeD (d : Doc)
  | seqD (ds : Docs)
  | mapD (es : Entries)
  | enumD (tag : Doc) (payload : Doc)
  | errD (msg : Str)

/-- A list of sequence elements (kept as a mutual inductive so all
recursions are structural). -/
inductive Docs where
  | nil
  | cons (hd : Doc) (tl : Docs)

/-- A list of map entries. -/
inductive Entries where
  | nil
  | cons (k : Doc) (v : Doc) (tl : Entries)
end

mutual
/-- Values built by the canonical downstream visitor.  `strV` records the
entry point through which the string was delivered to the wrapped visitor
(`src/de.rs` lines 151–179: an expanded string always goes through
`visit_string`, a passed-through string keeps its arrival entry point).
`ignoredV` is the output of serde's `IgnoredAny` visitor (the downstream
visitor installed by `deserialize_ignored_any`). -/
inductive Value where
  | boolV (b : Bool)
  | intV (n : Int)
  | floatV (bits : Nat)
  | charV (c : Char)
  | strV (sh : StrShape) (s : Str)
  | bytesV (bs : Bytes)
  | unitV
  | noneV
  | someV (v : Value)
  | newtypeV (v : Value)
  | seqV (vs : Values)
  | mapV (es : VEntries)
  | enumV (tag : Value) (payload : Value)
  | ignoredV

/-- A list of sequence element values. -/
inductive Values where
  | nil
  | cons (hd : Value) (tl : Values)

/-- A list of map entry values. -/
inductive VEntries where
  | nil
  | cons (k : Value) (v : Value) (tl : VEntries)
end

/-- Which downstream visitor sits under the proxy: `build` is the canonical
value-building visitor (any ordinary target type); `ignore` is serde's
`IgnoredAny`, the visitor that `deserialize_ignored_any` is driven with
when the target data shape discards the value.  The proxy installs the
same intercepting `Visitor` in both cases
(`forward_deserialize!(deserialize_ignored_any)`, `src/de.rs` line 79);
only the downstream value construction differs. -/
inductive Mode where
  | build
  | ignore
deriving DecidableEq, Repr

/-- What the downstream visitor returns for a constructed value:
the value itself, or `IgnoredAny`. -/
def Mode.out : Mode → Value → Value
  | .build, v => v
  | .ignore, _ => .ignoredV

mutual
/-- Decoding a document through the proxy pair (`Deserializer` wrapping the
canonical self-describing decoder, `Visitor` wrapping the downstream
visitor of `m`), returning the `Result` and the listener notifications in
order.  Case by case this mirrors `impl de::Visitor for Visitor`
(`src/de.rs` lines 125–249): scalars are forwarded verbatim
(`forward_visit!`); the three string entry points go through `expand_str`
and deliver either the expanded string via `visit_string` or the original
string via its arrival entry point; `visit_some` / `visit_newtype_struct`
re-wrap the nested deserializer; `visit_seq` / `visit_map` / `visit_enum`
re-wrap the accessor, whose `*_seed` methods wrap each seed in
`DeserializeSeed` (`src/de.rs` lines 251–336, 387–409), so every nested
value is decoded through the same proxy with the same listener. -/
def decodeWith (fs : FS) (m : Mode) : Doc → Except DeError Value × List Notification
  | .boolD b => (.ok (m.out (.boolV b)), [])
  | .intD n => (.ok (m.out (.intV n)), [])
  | .floatD bits => (.ok (m.out (.floatV bits)), [])
  | .charD c => (.ok (m.out (.charV c)), [])
  | .bytesD bs => (.ok (m.out (.bytesV bs)), [])
  | .unitD => (.ok (m.out .unitV), [])
  | .noneD => (.ok (m.out .noneV), [])
  | .strD sh s =>
    match expand_str fs s with
    | (.ok (some t), ns) => (.ok (m.out (.strV .owned t)), ns)
    | (.ok none, ns) => (.ok (m.out (.strV sh s)), ns)
    | (.error e, ns) => (.error e, ns)
  | .someD d =>
    match decodeWith fs m d with
    | (.ok v, ns) => (.ok (m.out (.someV v)), ns)
    | (.error e, ns) => (.error e, ns)
  | .newtypeD d =>
    match decodeWith fs m d with
    | (.ok v, ns) => (.ok (m.out (.newtypeV v)), ns)
    | (.error e, ns) => (.error e, ns)
  | .seqD ds =>
    match decodeSeq fs m ds with
    | (.ok vs, ns) => (.ok (m.out (.seqV vs)), ns)
    | (.error e, ns) => (.error e, ns)
  | .mapD es =>
    match decodeEntries fs m es with
    | (.ok ves, ns) => (.ok (m.out (.mapV ves)), ns)
    | (.error e, ns) => (.error e, ns)
  | .enumD tag payload =>
    match decodeWith fs m tag with
    | (.ok tv, ns) =>
      match decodeWith fs m payload with
      | (.ok pv, ns2) => (.ok (m.out (.enumV tv pv)), ns ++ ns2)
      | (.error e, ns2) => (.error e, ns ++ ns2)
    | (.error e, ns) => (.error e, ns)
  | .errD msg => (.error (.underlying msg), [])

/-- Sequence elements decoded left to right through `next_element_seed`
with proxied seeds; the first error aborts, notifications accumulate. -/
def decodeSeq (fs : FS) (m : Mode) : Docs → Except DeError Values × List Notification
  | .nil => (.ok .nil, [])
  | .cons d tl =>
    match decodeWith fs m d with
    | (.ok v, ns) =>
      match decodeSeq fs m tl with
      | (.ok vs, ns2) => (.ok (.cons v vs), ns ++ ns2)
      | (.error e, ns2) => (.error e, ns ++ ns2)
    | (.error e, ns) => (.error e, ns)

/-- Map entries decoded in order, key before value
(`next_key_seed` / `next_value_seed` with proxied seeds). -/
def decodeEntries (fs : FS) (m : Mode) : Entries → Except DeError VEntries × List Notification
  | .nil => (.ok .nil, [])
  | .cons k v tl =>
    match decodeWith fs m k with
    | (.ok kv, ns) =>
      match decodeWith fs m v with
      | (.ok vv, ns2) =>
        match decodeEntries fs m tl with
        | (.ok ves, ns3) => (.ok (.cons kv vv ves), ns ++ ns2 ++ ns3)
        | (.error e, ns3) => (.error e, ns ++ ns2 ++ ns3)
      | (.error e, ns2) => (.error e, ns ++ ns2)
    | (.error e, ns) => (.error e, ns)
end

mutual
/-- Decoding the same document directly, without the proxy pair: the
canonical self-describing decoder drives the downstream building visitor;
strings keep their arrival entry point, no file is touched, no listener
exists. -/
def decodeDirect : Doc → Except DeError Value
  | .boolD b => .ok (.boolV b)
  | .intD n => .ok (.intV n)
  | .floatD bits => .ok (.floatV bits)
  | .charD c => .ok (.charV c)
  | .bytesD bs => .ok (.bytesV bs)
  | .unitD => .ok .unitV
  | .noneD => .ok .noneV
  | .strD sh s => .ok (.strV sh s)
  | .someD d =>
    match decodeDirect d with
    | .ok v => .ok (.someV v)
    | .error e => .error e
  | .newtypeD d =>
    match decodeDirect d with
    | .ok v => .ok (.newtypeV v)
    | .error e => .error e
  | .seqD ds =>
    match decodeDirectSeq ds with
    | .ok vs => .ok (.seqV vs)
    | .error e => .error e
  | .mapD es =>
    match decodeDirectEntries es with
    | .ok ves => .ok (.mapV ves)
    | .error e => .error e
  | .enumD tag payload =>
    match decodeDirect tag with
    | .ok tv =>
      match decodeDirect payload with
      | .ok pv => .ok (.enumV tv pv)
      | .error e => .error e
    | .error e => .error e
  | .errD msg => .error (.underlying msg)

/-- Direct decoding of sequence elements. -/
def decodeDirectSeq : Docs → Except DeError Values
  | .nil => .ok .nil
  | .cons d tl =>
    match decodeDirect d with
    | .ok v =>
      match decodeDirectSeq tl with
      | .ok vs => .ok (.cons v vs)
      | .error e => .error e
    | .error e => .error e

/-- Direct decoding of map entries. -/
def decodeDirectEntries : Entries → Except DeError VEntries
  | .nil => .ok .nil
  | .cons k v tl =>
    match decodeDirect k with
    | .ok kv =>
      match decodeDirect v with
      | .ok vv =>
        match decodeDirectEntries tl with
        | .ok ves => .ok (.cons kv vv ves)
        | .error e => .error e
      | .error e => .error e
    | .error e => .error e
end

mutual
/-- `true` iff no string scalar anywhere in the document matches the
file-reference pattern. -/
def noRef : Doc → Bool
  | .strD _ s => (matchRef s).isNone
  | .someD d => noRef d
  | .newtypeD d => noRef d
  | .seqD ds => noRefSeq ds
  | .mapD es => noRefEntries es
  | .enumD tag payload => noRef tag && noRef payload
  | _ => true

/-- No matching string in any sequence element. -/
def noRefSeq : Docs → Bool
  | .nil => true
  | .cons d tl => noRef d && noRefSeq tl

/-- No matching string in any map entry. -/
def noRefEntries : Entries → Bool
  | .nil => true
  | .cons k v tl => noRef k && noRef v && noRefEntries tl
end

mutual
/-- `true` iff the wrapped decoder never fails inside the document
(no `errD` node). -/
def noErr : Doc → Bool
  | .someD d => noErr d
  | .newtypeD d => noErr d
  | .seqD ds => noErrSeq ds
  | .mapD es => noErrEntries es
  | .enumD tag payload => noErr tag && noErr payload
  | .errD _ => false
  | _ => true

/-- No decoder failure in any sequence element. -/
def noErrSeq : Docs → Bool
  | .nil => true
  | .cons d tl => noErr d && noErrSeq tl

/-- No decoder failure in any map entry. -/
def noErrEntries : Entries → Bool
  | .nil => true
  | .cons k v tl => noErr k && noErr v && noErrEntries tl
end

mutual
/-- The value a document decodes to directly when the wrapped decoder never
fails (total; the `errD` case is unreachable under `noErr`). -/
def evalDoc : Doc → Value
  | .boolD b => .boolV b
  | .intD n => .intV n
  | .floatD bits => .floatV bits
  | .charD c => .charV c
  | .bytesD bs => .bytesV bs
  | .unitD => .unitV
  | .noneD => .noneV
  | .strD sh s => .strV sh s
  | .someD d => .someV (evalDoc d)
  | .newtypeD d => .newtypeV (evalDoc d)
  | .seqD ds => .seqV (evalSeq ds)
  | .mapD es => .mapV (evalEntries es)
  | .enumD tag payload => .enumV (evalDoc tag) (evalDoc payload)
  | .errD _ => .unitV

/-- Direct values of sequence elements. -/
def evalSeq : Docs → Values
  | .nil => .nil
  | .cons d tl => .cons (evalDoc d) (evalSeq tl)

/-- Direct values of map entries. -/
def evalEntries : Entries → VEntries
  | .nil => .nil
  | .cons k v tl => .cons (evalDoc k) (evalDoc v) (evalEntries tl)
end

/-- Concatenation of element lists. -/
def Docs.append : Docs → Docs → Docs
  | .nil, ys => ys
  | .cons x xs, ys => .cons x (xs.append ys)

/-- Concatenation of entry lists. -/
def Entries.append : Entries → Entries → Entries
  | .nil, ys => ys
  | .cons k v xs, ys => .cons k v (xs.append ys)

/-- Concatenation of element value lists. -/
def Values.append : Values → Values → Values
  | .nil, ys => ys
  | .cons x xs, ys => .cons x (xs.append ys)

/-- Concatenation of entry value lists. -/
def VEntries.append : VEntries → VEntries → VEntries
  | .nil, ys => ys
  | .cons k v xs, ys => .cons k v (xs.append ys)

/-- A one-hole context: an arbitrarily deep composition of optionals,
newtype wrappers, sequence positions, map key/value positions, and enum
tag/payload positions around a single hole. -/
inductive Ctx where
  | hole
  | someC (c : Ctx)
  | newtypeC (c : Ctx)
  | seqC (before : Docs) (c : Ctx) (after : Docs)
  | mapKeyC (before : Entries) (c : Ctx) (vd : Doc) (after : Entries)
  | mapValC (before : Entries) (k : Doc) (c : Ctx) (after : Entries)
  | enumTagC (c : Ctx) (payload : Doc)
  | enumPayC (tag : Doc) (c : Ctx)

/-- Plugging a document into the hole of a context. -/
def Ctx.fill : Ctx → Doc → Doc
  | .hole, d => d
  | .someC c, d => .someD (c.fill d)
  | .newtypeC c, d => .newtypeD (c.fill d)
  | .seqC b c a, d => .seqD (b.append (.cons (c.fill d) a))
  | .mapKeyC b c vd a, d => .mapD (b.append (.cons (c.fill d) vd a))
  | .mapValC b k c a, d => .mapD (b.append (.cons k (c.fill d) a))
  | .enumTagC c p, d => .enumD (c.fill d) p
  | .enumPayC t c, d => .enumD t (c.fill d)

/-- Plugging a value into the hole of a context, the side documents taking
their direct values. -/
def Ctx.fillVal : Ctx → Value → Value
  | .hole, v => v
  | .someC c, v => .someV (c.fillVal v)
  | .newtypeC c, v => .newtypeV (c.fillVal v)
  | .seqC b c a, v => .seqV ((evalSeq b).append (.cons (c.fillVal v) (evalSeq a)))
  | .mapKeyC b c vd a, v =>
    .mapV ((evalEntries b).append (.cons (c.fillVal v) (evalDoc vd) (evalEntries a)))
  | .mapValC b k c a, v =>
    .mapV ((evalEntries b).append (.cons (evalDoc k) (c.fillVal v) (evalEntries a)))
  | .enumTagC c p, v => .enumV (c.fillVal v) (evalDoc p)
  | .enumPayC t c, v => .enumV (evalDoc t) (c.fillVal v)

/-- A document that neither contains a matching reference nor a decoder
failure. -/
def pureD (d : Doc) : Bool := noRef d && noErr d

/-- Pure sequence elements. -/
def pureSeq (ds : Docs) : Bool := noRefSeq ds && noErrSeq ds

/-- Pure map entries. -/
def pureEntries (es : Entries) : Bool := noRefEntries es && noErrEntries es

/-- A context all of whose side documents are pure: decoding them touches
no file and cannot fail. -/
def Ctx.benign : Ctx → Bool
  | .hole => true
  | .someC c => c.benign
  | .newtypeC c => c.benign
  | .seqC b c a => pureSeq b && c.benign && pureSeq a
  | .mapKeyC b c vd a => pureEntries b && c.benign && pureD vd && pureEntries a
  | .mapValC b k c a => pureEntries b && pureD k && c.benign && pureEntries a
  | .enumTagC c p => c.benign && pureD p
  | .enumPayC t c => pureD t && c.benign

/-- The bytes of `hunter2` (the file contents of the crate's smoke test). -/
def hunter2Bytes : Bytes := [104, 117, 110, 116, 101, 114, 50]

/-- The bytes of the string `${file:/q}`: a file whose contents are
themselves a reference. -/
def refQBytes : Bytes := [36, 123, 102, 105, 108, 101, 58, 47, 113, 125]

/-- A concrete filesystem used by the witnesses: `/tmp/t` holds `hunter2`,
`/tmp/bad` holds a byte that is not valid UTF-8, `/tmp/ref` holds
`${file:/q}`, everything else is missing. -/
def fsW : FS := fun p =>
  if p = "/tmp/t".toList then .ok hunter2Bytes
  else if p = "/tmp/bad".toList then .ok [0xFF]
  else if p = "/tmp/ref".toList then .ok refQBytes
  else .err ⟨"no such file or directory".toList⟩

theorem strip_prefix_eq_some {p s r : Str} :
    strip_prefix p s = some r ↔ s = p ++ r := by
  induction p generalizing s with
  | nil => cases s <;> simp [ strip_prefix]
  | cons x xs ih =>
    cases s with
    | nil => simp [ strip_prefix]
    | cons c cs =>
      by_cases hc : c = x
      · subst hc
        simp [ strip_prefix, ih]
      · simp [ strip_prefix, hc, Ne.symm hc]

theorem strip_suffix_eq_some {c : Char} {s r : Str} :
    strip_suffix c s = some r ↔ s = r ++ [c] := by
  induction s using List.reverseRecOn with
  | nil => simp [strip_suffix]
  | append_singleton xs x _ =>
    by_cases hx : x = c
    · subst hx
      simp [strip_suffix]
    · simp [strip_suffix, hx]
      intro h
      exact absurd (List.append_inj' h rfl).2 (by simp [hx])

theorem matchRef_eq_some {s P : Str} : matchRef s = some P ↔ s = refStr P := by
  unfold matchRef refStr
  constructor
  · intro h
    rcases Option.bind_eq_some.mp h with ⟨r, hr, hs⟩
    rw [strip_prefix_eq_some.mp hr, strip_suffix_eq_some.mp hs, List.append_assoc]
  · intro h
    subst h
    rw [Option.bind_eq_some]
    exact ⟨P ++ [refSuffix], strip_prefix_eq_some.mpr (List.append_assoc _ _ _),
      strip_suffix_eq_some.mpr rfl⟩

theorem matchRef_refStr (P : Str) : matchRef (refStr P) = some P :=
  matchRef_eq_some.mpr rfl

@[simp] theorem Mode.out_build (v : Value) : Mode.out .build v = v := rfl

mutual
/-- Pass-through: on a document with no matching reference the proxy pair
returns exactly the direct result and makes no notification. -/
theorem noRef_decodeWith (fs : FS) : ∀ (d : Doc), noRef d = true →
    decodeWith fs .build d = (decodeDirect d, [])
  | .boolD _, _ => rfl
  | .intD _, _ => rfl
  | .floatD _, _ => rfl
  | .charD _, _ => rfl
  | .bytesD _, _ => rfl
  | .unitD, _ => rfl
  | .noneD, _ => rfl
  | .errD _, _ => rfl
  | .strD sh s, h => by
    have hm : matchRef s = none := by
      simpa [noRef, Option.isNone_iff_eq_none] using h
    simp [decodeWith, decodeDirect, expand_str, hm]
  | .someD d, h => by
    have ih := noRef_decodeWith fs d (by simpa [noRef] using h)
    cases hd : decodeDirect d <;>
      simp [decodeWith, decodeDirect, ih, hd]
  | .newtypeD d, h => by
    have ih := noRef_decodeWith fs d (by simpa [noRef] using h)
    cases hd : decodeDirect d <;>
      simp [decodeWith, decodeDirect, ih, hd]
  | .seqD ds, h => by
    have ih := noRefSeq_decodeSeq fs ds (by simpa [noRef] using h)
    cases hd : decodeDirectSeq ds <;>
      simp [decodeWith, decodeDirect, ih, hd]
  | .mapD es, h => by
    have ih := noRefEntries_decodeEntries fs es (by simpa [noRef] using h)
    cases hd : decodeDirectEntries es <;>
      simp [decodeWith, decodeDirect, ih, hd]
  | .enumD tag payload, h => by
    have h' : noRef tag = true ∧ noRef payload = true := by simpa [noRef] using h
    have ih1 := noRef_decodeWith fs tag h'.1
    have ih2 := noRef_decodeWith fs payload h'.2
    cases ht : decodeDirect tag <;> cases hp : decodeDirect payload <;>
      simp [decodeWith, decodeDirect, ih1, ih2, ht, hp]

/-- Pass-through for sequence elements. -/
theorem noRefSeq_decodeSeq (fs : FS) : ∀ (ds : Docs), noRefSeq ds = true →
    decodeSeq fs .build ds = (decodeDirectSeq ds, [])
  | .nil, _ => rfl
  | .cons d tl, h => by
    have h' : noRef d = true ∧ noRefSeq tl = true := by simpa [noRefSeq] using h
    have ih1 := noRef_decodeWith fs d h'.1
    have ih2 := noRefSeq_decodeSeq fs tl h'.2
    cases hd : decodeDirect d <;> cases htl : decodeDirectSeq tl <;>
      simp [decodeSeq, decodeDirectSeq, ih1, ih2, hd, htl]

/-- Pass-through for map entries. -/
theorem noRefEntries_decodeEntries (fs : FS) : ∀ (es : Entries), noRefEntries es = true →
    decodeEntries fs .build es = (decodeDirectEntries es, [])
  | .nil, _ => rfl
  | .cons k v tl, h => by
    have h' : noRef k = true ∧ noRef v = true ∧ noRefEntries tl = true := by
      simpa [noRefEntries, and_assoc] using h
    have ih1 := noRef_decodeWith fs k h'.1
    have ih2 := noRef_decodeWith fs v h'.2.1
    have ih3 := noRefEntries_decodeEntries fs tl h'.2.2
    cases hk : decodeDirect k <;> cases hv : decodeDirect v <;>
      cases htl : decodeDirectEntries tl <;>
      simp [decodeEntries, decodeDirectEntries, ih1, ih2, ih3, hk, hv, htl]
end

mutual
/-- Without decoder failures, direct decoding succeeds with the direct
value. -/
theorem noErr_decodeDirect : ∀ (d : Doc), noErr d = true →
    decodeDirect d = .ok (evalDoc d)
  | .boolD _, _ => rfl
  | .intD _, _ => rfl
  | .floatD _, _ => rfl
  | .charD _, _ => rfl
  | .bytesD _, _ => rfl
  | .unitD, _ => rfl
  | .noneD, _ => rfl
  | .strD _ _, _ => rfl
  | .someD d, h => by
    have ih := noErr_decodeDirect d (by simpa [noErr] using h)
    simp [decodeDirect, evalDoc, ih]
  | .newtypeD d, h => by
    have ih := noErr_decodeDirect d (by simpa [noErr] using h)
    simp [decodeDirect, evalDoc, ih]
  | .seqD ds, h => by
    have ih := noErrSeq_decodeDirectSeq ds (by simpa [noErr] using h)
    simp [decodeDirect, evalDoc, ih]
  | .mapD es, h => by
    have ih := noErrEntries_decodeDirectEntries es (by simpa [noErr] using h)
    simp [decodeDirect, evalDoc, ih]
  | .enumD tag payload, h => by
    have h' : noErr tag = true ∧ noErr payload = true := by simpa [noErr] using h
    simp [decodeDirect, evalDoc, noErr_decodeDirect tag h'.1,
      noErr_decodeDirect payload h'.2]

/-- Without decoder failures, direct sequence decoding succeeds. -/
theorem noErrSeq_decodeDirectSeq : ∀ (ds : Docs), noErrSeq ds = true →
    decodeDirectSeq ds = .ok (evalSeq ds)
  | .nil, _ => rfl
  | .cons d tl, h => by
    have h' : noErr d = true ∧ noErrSeq tl = true := by simpa [noErrSeq] using h
    simp [decodeDirectSeq, evalSeq, noErr_decodeDirect d h'.1,
      noErrSeq_decodeDirectSeq tl h'.2]

/-- Without decoder failures, direct entry decoding succeeds. -/
theorem noErrEntries_decodeDirectEntries : ∀ (es : Entries), noErrEntries es = true →
    decodeDirectEntries es = .ok (evalEntries es)
  | .nil, _ => rfl
  | .cons k v tl, h => by
    have h' : noErr k = true ∧ noErr v = true ∧ noErrEntries tl = true := by
      simpa [noErrEntries, and_assoc] using h
    simp [decodeDirectEntries, evalEntries, noErr_decodeDirect k h'.1,
      noErr_decodeDirect v h'.2.1, noErrEntries_decodeDirectEntries tl h'.2.2]
end

/-- A pure document decodes through the proxy to its direct value with no
notification. -/
theorem pureD_decodeWith (fs : FS) (d : Doc) (h : pureD d = true) :
    decodeWith fs .build d = (.ok (evalDoc d), []) := by
  have h' : noRef d = true ∧ noErr d = true := by simpa [pureD] using h
  rw [noRef_decodeWith fs d h'.1, noErr_decodeDirect d h'.2]

/-- Pure sequence elements decode to their direct values with no
notification. -/
theorem pureSeq_decodeSeq (fs : FS) (ds : Docs) (h : pureSeq ds = true) :
    decodeSeq fs .build ds = (.ok (evalSeq ds), []) := by
  have h' : noRefSeq ds = true ∧ noErrSeq ds = true := by simpa [pureSeq] using h
  rw [noRefSeq_decodeSeq fs ds h'.1, noErrSeq_decodeDirectSeq ds h'.2]

/-- Pure map entries decode to their direct values with no notification. -/
theorem pureEntries_decodeEntries (fs : FS) (es : Entries) (h : pureEntries es = true) :
    decodeEntries fs .build es = (.ok (evalEntries es), []) := by
  have h' : noRefEntries es = true ∧ noErrEntries es = true := by
    simpa [pureEntries] using h
  rw [noRefEntries_decodeEntries fs es h'.1, noErrEntries_decodeDirectEntries es h'.2]

/-- Decoding a sequence whose prefix is pure: the prefix contributes its
direct values and no notification, then the rest is decoded. -/
theorem decodeSeq_append_pure (fs : FS) : ∀ (b rest : Docs), pureSeq b = true →
    decodeSeq fs .build (b.append rest) =
      (match decodeSeq fs .build rest with
       | (.ok vs, ns) => (.ok ((evalSeq b).append vs), ns)
       | (.error e, ns) => (.error e, ns))
  | .nil, rest, _ => by
    rcases hr : decodeSeq fs .build rest with ⟨r, ns⟩
    rcases r with e | vs <;> simp [Docs.append, evalSeq, Values.append, hr]
  | .cons d tl, rest, h => by
    have hparts : (noRef d = true ∧ noRefSeq tl = true) ∧
        noErr d = true ∧ noErrSeq tl = true := by
      simpa [pureSeq, noRefSeq, noErrSeq] using h
    have hd : pureD d = true := by simp [pureD, hparts.1.1, hparts.2.1]
    have htl : pureSeq tl = true := by simp [pureSeq, hparts.1.2, hparts.2.2]
    have ih := decodeSeq_append_pure fs tl rest htl
    rcases hr : decodeSeq fs .build rest with ⟨r, ns⟩
    rw [hr] at ih
    rcases r with e | vs <;>
      simp [Docs.append, decodeSeq, pureD_decodeWith fs d hd, ih, evalSeq,
        Values.append]

/-- Decoding map entries whose prefix is pure. -/
theorem decodeEntries_append_pure (fs : FS) : ∀ (b rest : Entries), pureEntries b = true →
    decodeEntries fs .build (b.append rest) =
      (match decodeEntries fs .build rest with
       | (.ok ves, ns) => (.ok ((evalEntries b).append ves), ns)
       | (.error e, ns) => (.error e, ns))
  | .nil, rest, _ => by
    rcases hr : decodeEntries fs .build rest with ⟨r, ns⟩
    rcases r with e | ves <;> simp [Entries.append, evalEntries, VEntries.append, hr]
  | .cons k v tl, rest, h => by
    have hparts : (noRef k = true ∧ noRef v = true ∧ noRefEntries tl = true) ∧
        noErr k = true ∧ noErr v = true ∧ noErrEntries tl = true := by
      simpa [pureEntries, noRefEntries, noErrEntries, and_assoc] using h
    have hk : pureD k = true := by simp [pureD, hparts.1.1, hparts.2.1]
    have hv : pureD v = true := by simp [pureD, hparts.1.2.1, hparts.2.2.1]
    have htl : pureEntries tl = true := by
      simp [pureEntries, hparts.1.2.2, hparts.2.2.2]
    have ih := decodeEntries_append_pure fs tl rest htl
    rcases hr : decodeEntries fs .build rest with ⟨r, ns⟩
    rw [hr] at ih
    rcases r with e | ves <;>
      simp [Entries.append, decodeEntries, pureD_decodeWith fs k hk,
        pureD_decodeWith fs v hv, ih, evalEntries, VEntries.append]

/-- Decoding a document plugged into a benign context: the context
contributes no notification and no failure, the hole's result is mapped
into place, and the hole's notifications (and error, if any) surface
unchanged.  This is the recursive re-wrapping of nested deserializers,
accessors and seeds (`src/de.rs` lines 195–248, 251–336, 387–409) made
compositional. -/
theorem ctx_fill_decodeWith (fs : FS) : ∀ (c : Ctx), c.benign = true → ∀ (d : Doc),
    decodeWith fs .build (c.fill d) =
      (Except.map c.fillVal (decodeWith fs .build d).1, (decodeWith fs .build d).2)
  | .hole, _, d => by
    rcases hr : decodeWith fs .build d with ⟨r, ns⟩
    rcases r with e | v <;> simp [Ctx.fill, Ctx.fillVal, hr, Except.map]
  | .someC c, hb, d => by
    have ih := ctx_fill_decodeWith fs c (by simpa [Ctx.benign] using hb) d
    rcases hr : decodeWith fs .build d with ⟨r, ns⟩
    rw [hr] at ih
    rcases r with e | v <;>
      simp [Ctx.fill, Ctx.fillVal, decodeWith, ih, Except.map]
  | .newtypeC c, hb, d => by
    have ih := ctx_fill_decodeWith fs c (by simpa [Ctx.benign] using hb) d
    rcases hr : decodeWith fs .build d with ⟨r, ns⟩
    rw [hr] at ih
    rcases r with e | v <;>
      simp [Ctx.fill, Ctx.fillVal, decodeWith, ih, Except.map]
  | .seqC b c a, hb, d => by
    have hparts : pureSeq b = true ∧ c.benign = true ∧ pureSeq a = true := by
      simpa [Ctx.benign, and_assoc] using hb
    have ih := ctx_fill_decodeWith fs c hparts.2.1 d
    rcases hr : decodeWith fs .build d with ⟨r, ns⟩
    rw [hr] at ih
    have happ := decodeSeq_append_pure fs b (.cons (c.fill d) a) hparts.1
    rcases r with e | v
    · have hcons : decodeSeq fs .build (.cons (c.fill d) a) = (.error e, ns) := by
        simp [decodeSeq, ih, Except.map]
      rw [hcons] at happ
      simp [Ctx.fill, decodeWith, happ, Ctx.fillVal, Except.map]
    · have hcons : decodeSeq fs .build (.cons (c.fill d) a) =
          (.ok (.cons (c.fillVal v) (evalSeq a)), ns) := by
        simp [decodeSeq, ih, Except.map, pureSeq_decodeSeq fs a hparts.2.2]
      rw [hcons] at happ
      simp [Ctx.fill, decodeWith, happ, Ctx.fillVal, Except.map]
  | .mapKeyC b c vd a, hb, d => by
    have hparts : pureEntries b = true ∧ c.benign = true ∧ pureD vd = true ∧
        pureEntries a = true := by
      simpa [Ctx.benign, and_assoc] using hb
    have ih := ctx_fill_decodeWith fs c hparts.2.1 d
    rcases hr : decodeWith fs .build d with ⟨r, ns⟩
    rw [hr] at ih
    have happ := decodeEntries_append_pure fs b (.cons (c.fill d) vd a) hparts.1
    rcases r with e | v
    · have hcons : decodeEntries fs .build (.cons (c.fill d) vd a) = (.error e, ns) := by
        simp [decodeEntries, ih, Except.map]
      rw [hcons] at happ
      simp [Ctx.fill, decodeWith, happ, Ctx.fillVal, Except.map]
    · have hcons : decodeEntries fs .build (.cons (c.fill d) vd a) =
          (.ok (.cons (c.fillVal v) (evalDoc vd) (evalEntries a)), ns) := by
        simp [decodeEntries, ih, Except.map, pureD_decodeWith fs vd hparts.2.2.1,
          pureEntries_decodeEntries fs a hparts.2.2.2]
      rw [hcons] at happ
      simp [Ctx.fill, decodeWith, happ, Ctx.fillVal, Except.map]
  | .mapValC b k c a, hb, d => by
    have hparts : pureEntries b = true ∧ pureD k = true ∧ c.benign = true ∧
        pureEntries a = true := by
      simpa [Ctx.benign, and_assoc] using hb
    have ih := ctx_fill_decodeWith fs c hparts.2.2.1 d
    rcases hr : decodeWith fs .build d with ⟨r, ns⟩
    rw [hr] at ih
    have happ := decodeEntries_append_pure fs b (.cons k (c.fill d) a) hparts.1
    rcases r with e | v
    · have hcons : decodeEntries fs .build (.cons k (c.fill d) a) = (.error e, ns) := by
        simp [decodeEntries, ih, Except.map, pureD_decodeWith fs k hparts.2.1]
      rw [hcons] at happ
      simp [Ctx.fill, decodeWith, happ, Ctx.fillVal, Except.map]
    · have hcons : decodeEntries fs .build (.cons k (c.fill d) a) =
          (.ok (.cons (evalDoc k) (c.fillVal v) (evalEntries a)), ns) := by
        simp [decodeEntries, ih, Except.map, pureD_decodeWith fs k hparts.2.1,
          pureEntries_decodeEntries fs a hparts.2.2.2]
      rw [hcons] at happ
      simp [Ctx.fill, decodeWith, happ, Ctx.fillVal, Except.map]
  | .enumTagC c p, hb, d => by
    have hparts : c.benign = true ∧ pureD p = true := by
      simpa [Ctx.benign] using hb
    have ih := ctx_fill_decodeWith fs c hparts.1 d
    rcases hr : decodeWith fs .build d with ⟨r, ns⟩
    rw [hr] at ih
    rcases r with e | v <;>
      simp [Ctx.fill, Ctx.fillVal, decodeWith, ih, Except.map,
        pureD_decodeWith fs p hparts.2]
  | .enumPayC t c, hb, d => by
    have hparts : pureD t = true ∧ c.benign = true := by
      simpa [Ctx.benign] using hb
    have ih := ctx_fill_decodeWith fs c hparts.2 d
    rcases hr : decodeWith fs .build d with ⟨r, ns⟩
    rw [hr] at ih
    rcases r with e | v <;>
      simp [Ctx.fill, Ctx.fillVal, decodeWith, ih, Except.map,
        pureD_decodeWith fs t hparts.1]

/-- C1: for a document whose string value is `${file:P}` (at any of the
three delivery shapes) with the file at `P` holding bytes `b` that decode
as text `s`, the proxied decode succeeds with the field equal to `s`
(delivered owned), and the listener is invoked exactly once, with path `P`
and the successful read result carrying `b`. -/
theorem C1_expansion_correctness (fs : FS) (sh : StrShape) (P : Str) (b : Bytes) (s : Str)
    (hread : fs P = .ok b) (hutf : utf8Decode b = some s) :
    decodeWith fs .build (.strD sh (refStr P)) =
      (.ok (.strV .owned s), [⟨P, .ok b⟩]) := by
  simp [decodeWith, expand_str, matchRef_refStr, hread, hutf]

/-- Witness for C1: `/tmp/t` holds `hunter2`. -/
theorem C1_expansion_correctness_witness :
    fsW "/tmp/t".toList = .ok hunter2Bytes ∧
    utf8Decode hunter2Bytes = some "hunter2".toList ∧
    decodeWith fsW .build (.strD .borrowed (refStr "/tmp/t".toList)) =
      (.ok (.strV .owned "hunter2".toList), [⟨"/tmp/t".toList, .ok hunter2Bytes⟩]) :=
  ⟨rfl, rfl,
    C1_expansion_correctness fsW .borrowed "/tmp/t".toList hunter2Bytes
      "hunter2".toList rfl rfl⟩

/-- C2: on a document with no string matching the file-reference pattern,
the proxied decode returns exactly the same `Result` as the direct decode
— the same value on success, any wrapped-decoder error passed through
unmodified, never generated or suppressed — and the listener is invoked
zero times. -/
theorem C2_pass_through (fs : FS) (d : Doc) (h : noRef d = true) :
    decodeWith fs .build d = (decodeDirect d, []) :=
  noRef_decodeWith fs d h

/-- Witness for C2: a map document with a non-anchored `${foobar}` string
and a point where the wrapped decoder fails; the proxied result equals the
direct result (the underlying error verbatim) with zero notifications. -/
theorem C2_pass_through_witness :
    noRef (.mapD (.cons (.strD .borrowed "inline".toList)
        (.strD .transient "$\x7bfoobar\x7d".toList)
        (.cons (.strD .borrowed "oops".toList) (.errD "invalid type".toList) .nil))) = true ∧
    decodeWith fsW .build (.mapD (.cons (.strD .borrowed "inline".toList)
        (.strD .transient "$\x7bfoobar\x7d".toList)
        (.cons (.strD .borrowed "oops".toList) (.errD "invalid type".toList) .nil))) =
      (.error (.underlying "invalid type".toList), []) :=
  ⟨rfl, by
    rw [C2_pass_through fsW (.mapD (.cons (.strD .borrowed "inline".toList)
        (.strD .transient "$\x7bfoobar\x7d".toList)
        (.cons (.strD .borrowed "oops".toList) (.errD "invalid type".toList) .nil))) rfl]
    rfl⟩

/-- C3: for a string value `${file:P}` whose read fails with I/O error `e`,
the decode fails with `E::custom("error reading file {P}: {e}")` — a
message containing `P` — the listener is invoked exactly once with path
`P` and the failed read result, and no value is forwarded to the wrapped
visitor (the whole result is the error). -/
theorem C3_failure_correctness (fs : FS) (sh : StrShape) (P : Str) (e : IOErr)
    (hread : fs P = .err e) :
    decodeWith fs .build (.strD sh (refStr P)) =
      (.error (.custom (readErrMsg P e)), [⟨P, .err e⟩]) ∧
    ∃ pre post : Str, readErrMsg P e = pre ++ P ++ post := by
  constructor
  · simp [decodeWith, expand_str, matchRef_refStr, hread]
  · exact ⟨"error reading file ".toList, ": ".toList ++ e.msg, by
      simp [readErrMsg]⟩

/-- Witness for C3: `/bogus` does not exist in `fsW`. -/
theorem C3_failure_correctness_witness :
    fsW "/bogus".toList = .err ⟨"no such file or directory".toList⟩ ∧
    (decodeWith fsW .build (.strD .transient (refStr "/bogus".toList)) =
      (.error (.custom (readErrMsg "/bogus".toList ⟨"no such file or directory".toList⟩)),
       [⟨"/bogus".toList, .err ⟨"no such file or directory".toList⟩⟩]) ∧
     ∃ pre post : Str,
       readErrMsg "/bogus".toList ⟨"no such file or directory".toList⟩ =
         pre ++ "/bogus".toList ++ post) :=
  ⟨rfl, C3_failure_correctness fsW .transient "/bogus".toList
    ⟨"no such file or directory".toList⟩ rfl⟩

/-- C4 counterexample: the string `${file:}` — the pattern with an *empty*
middle segment — does trigger expansion (`strip_prefix` and `strip_suffix`
both succeed, giving the empty path), and the listener is invoked for it,
although it is not of the form `${file:P}` for any non-empty `P`.  The
claim's "non-empty middle segment" requirement does not hold in the code. -/
theorem C4_counterexample :
    (matchRef (refStr [])).isSome = true ∧
    (decodeWith fsW .build (.strD .transient (refStr []))).2 =
      [⟨[], .err ⟨"no such file or directory".toList⟩⟩] ∧
    ¬ ∃ P : Str, P ≠ [] ∧ refStr [] = refStr P := by
  refine ⟨rfl, rfl, ?_⟩
  rintro ⟨P, hne, heq⟩
  have h := congrArg matchRef heq
  rw [matchRef_refStr, matchRef_refStr] at h
  exact hne (Option.some.inj h).symm

/-- C4 (amended): a string triggers file expansion iff it is exactly of the
form `${file:P}` for some *possibly empty* middle segment `P` (literal
prefix `${file:`, literal suffix `}`, nothing before or after); every
other string — including one merely containing the pattern or an
unterminated `${file:/x` — is forwarded unmodified at its arrival shape
and the listener is invoked zero times for it. -/
theorem C4_exact_anchored_match (fs : FS) (sh : StrShape) (s : Str) :
    ((matchRef s).isSome = true ↔ ∃ P : Str, s = refStr P) ∧
    (matchRef s = none →
      decodeWith fs .build (.strD sh s) = (.ok (.strV sh s), [])) := by
  constructor
  · rw [Option.isSome_iff_exists]
    exact exists_congr fun P => matchRef_eq_some
  · intro hm
    simp [decodeWith, expand_str, hm]

/-- Witness for C4 (amended): `${file:}` matches (with the empty path);
the unterminated `${file:/x` does not and passes through untouched. -/
theorem C4_exact_anchored_match_witness :
    ((matchRef (refStr [])).isSome = true ↔ ∃ P : Str, refStr [] = refStr P) ∧
    matchRef "$\x7bfile:/x".toList = none ∧
    decodeWith fsW .build (.strD .borrowed "$\x7bfile:/x".toList) =
      (.ok (.strV .borrowed "$\x7bfile:/x".toList), []) :=
  ⟨(C4_exact_anchored_match fsW .borrowed (refStr [])).1, rfl,
    (C4_exact_anchored_match fsW .borrowed "$\x7bfile:/x".toList).2 rfl⟩

/-- C5: a reference nested at any depth inside a benign composition of
sequences, maps, optionals, newtype wrappers and enum tag/payload
positions is expanded exactly as a top-level reference — the hole's value
is the owned expanded string, the surrounding structure decodes to its
direct values — and the listener is invoked exactly once, with path `P`
and the successful read result. -/
theorem C5_nested_expansion (fs : FS) (c : Ctx) (sh : StrShape) (P : Str) (b : Bytes)
    (s : Str) (hb : c.benign = true) (hread : fs P = .ok b)
    (hutf : utf8Decode b = some s) :
    decodeWith fs .build (c.fill (.strD sh (refStr P))) =
      (.ok (c.fillVal (.strV .owned s)), [⟨P, .ok b⟩]) := by
  have htop : decodeWith fs .build (.strD sh (refStr P)) =
      (.ok (.strV .owned s), [⟨P, .ok b⟩]) := by
    simp [decodeWith, expand_str, matchRef_refStr, hread, hutf]
  rw [ctx_fill_decodeWith fs c hb, htop]
  rfl

/-- Witness for C5: the reference sits inside a sequence inside a map value
inside an optional, with pure siblings. -/
theorem C5_nested_expansion_witness :
    Ctx.benign (.someC (.mapValC .nil (.strD .borrowed "file".toList)
      (.seqC .nil .hole (.cons (.boolD true) .nil)) .nil)) = true ∧
    fsW "/tmp/t".toList = .ok hunter2Bytes ∧
    utf8Decode hunter2Bytes = some "hunter2".toList ∧
    decodeWith fsW .build
      ((Ctx.someC (.mapValC .nil (.strD .borrowed "file".toList)
        (.seqC .nil .hole (.cons (.boolD true) .nil)) .nil)).fill
          (.strD .borrowed (refStr "/tmp/t".toList))) =
      (.ok ((Ctx.someC (.mapValC .nil (.strD .borrowed "file".toList)
        (.seqC .nil .hole (.cons (.boolD true) .nil)) .nil)).fillVal
          (.strV .owned "hunter2".toList)),
       [⟨"/tmp/t".toList, .ok hunter2Bytes⟩]) :=
  ⟨rfl, rfl, rfl,
    C5_nested_expansion fsW
      (.someC (.mapValC .nil (.strD .borrowed "file".toList)
        (.seqC .nil .hole (.cons (.boolD true) .nil)) .nil))
      .borrowed "/tmp/t".toList hunter2Bytes "hunter2".toList rfl rfl rfl⟩

/-- C6: for a matched reference whose read succeeds with bytes `b` that are
not valid UTF-8, the decode fails with
`E::custom("error parsing file {P}: {e}")` — a message containing `P` —
and the listener has been invoked exactly once, with the *successful* read
result carrying `b` (the notification is made before the conversion is
attempted: `(self.listener)(path.as_ref(), &value)` precedes the
`String::from_utf8` match in `expand_str`). -/
theorem C6_utf8_error (fs : FS) (sh : StrShape) (P : Str) (b : Bytes)
    (hread : fs P = .ok b) (hutf : utf8Decode b = none) :
    decodeWith fs .build (.strD sh (refStr P)) =
      (.error (.custom (parseErrMsg P b)), [⟨P, .ok b⟩]) ∧
    ∃ pre post : Str, parseErrMsg P b = pre ++ P ++ post := by
  constructor
  · simp [decodeWith, expand_str, matchRef_refStr, hread, hutf]
  · exact ⟨"error parsing file ".toList, ": ".toList ++ fromUtf8ErrMsg b, by
      simp [parseErrMsg]⟩

/-- Witness for C6: `/tmp/bad` holds the lone byte `0xFF`, which is not
valid UTF-8. -/
theorem C6_utf8_error_witness :
    fsW "/tmp/bad".toList = .ok [0xFF] ∧
    utf8Decode [0xFF] = none ∧
    (decodeWith fsW .build (.strD .owned (refStr "/tmp/bad".toList)) =
      (.error (.custom (parseErrMsg "/tmp/bad".toList [0xFF])),
       [⟨"/tmp/bad".toList, .ok [0xFF]⟩]) ∧
     ∃ pre post : Str, parseErrMsg "/tmp/bad".toList [0xFF] =
       pre ++ "/tmp/bad".toList ++ post) :=
  ⟨rfl, rfl, C6_utf8_error fsW .owned "/tmp/bad".toList [0xFF] rfl rfl⟩

/-- C7: a non-matching string is forwarded through the same entry point it
arrived at (`visit_borrowed_str` stays `visit_borrowed_str`, `visit_str`
stays `visit_str`, `visit_string` stays `visit_string` — the shape `sh`
recorded in the delivered value is the arrival shape), while an expanded
reference is always delivered through `visit_string` (the owned shape),
never a borrowed one. -/
theorem C7_delivery_shape (fs : FS) (sh : StrShape) :
    (∀ s : Str, matchRef s = none →
      decodeWith fs .build (.strD sh s) = (.ok (.strV sh s), [])) ∧
    (∀ (P : Str) (b : Bytes) (t : Str), fs P = .ok b → utf8Decode b = some t →
      decodeWith fs .build (.strD sh (refStr P)) =
        (.ok (.strV .owned t), [⟨P, .ok b⟩])) := by
  constructor
  · intro s hm
    simp [decodeWith, expand_str, hm]
  · intro P b t hread hutf
    simp [decodeWith, expand_str, matchRef_refStr, hread, hutf]

/-- Witness for C7: a plain string arrives and leaves borrowed; the
expanded `/tmp/t` reference leaves owned although it arrived borrowed. -/
theorem C7_delivery_shape_witness :
    matchRef "abc".toList = none ∧
    fsW "/tmp/t".toList = .ok hunter2Bytes ∧
    utf8Decode hunter2Bytes = some "hunter2".toList ∧
    decodeWith fsW .build (.strD .borrowed "abc".toList) =
      (.ok (.strV .borrowed "abc".toList), []) ∧
    decodeWith fsW .build (.strD .borrowed (refStr "/tmp/t".toList)) =
      (.ok (.strV .owned "hunter2".toList), [⟨"/tmp/t".toList, .ok hunter2Bytes⟩]) :=
  ⟨rfl, rfl, rfl,
    (C7_delivery_shape fsW .borrowed).1 "abc".toList rfl,
    (C7_delivery_shape fsW .borrowed).2 "/tmp/t".toList hunter2Bytes
      "hunter2".toList rfl rfl⟩

/-- C8: no caching — a document in which the same path `P` appears in two
matched references reads the file once per reference, at the point it is
encountered, and the listener is invoked twice, once per reference. -/
theorem C8_no_caching (fs : FS) (sh1 sh2 : StrShape) (P : Str) (b : Bytes) (s : Str)
    (hread : fs P = .ok b) (hutf : utf8Decode b = some s) :
    decodeWith fs .build
      (.seqD (.cons (.strD sh1 (refStr P)) (.cons (.strD sh2 (refStr P)) .nil))) =
      (.ok (.seqV (.cons (.strV .owned s) (.cons (.strV .owned s) .nil))),
       [⟨P, .ok b⟩, ⟨P, .ok b⟩]) := by
  simp [decodeWith, decodeSeq, expand_str, matchRef_refStr, hread, hutf]

/-- Witness for C8: `/tmp/t` referenced twice in one sequence. -/
theorem C8_no_caching_witness :
    fsW "/tmp/t".toList = .ok hunter2Bytes ∧
    utf8Decode hunter2Bytes = some "hunter2".toList ∧
    decodeWith fsW .build
      (.seqD (.cons (.strD .borrowed (refStr "/tmp/t".toList))
        (.cons (.strD .transient (refStr "/tmp/t".toList)) .nil))) =
      (.ok (.seqV (.cons (.strV .owned "hunter2".toList)
        (.cons (.strV .owned "hunter2".toList) .nil))),
       [⟨"/tmp/t".toList, .ok hunter2Bytes⟩, ⟨"/tmp/t".toList, .ok hunter2Bytes⟩]) :=
  ⟨rfl, rfl,
    C8_no_caching fsW .borrowed .transient "/tmp/t".toList hunter2Bytes
      "hunter2".toList rfl rfl⟩

/-- C9: expansion is single-pass — when the file at `P` contains exactly
the text `${file:Q}`, the expanded string is handed to the wrapped visitor
as an owned string without being re-matched, so the decoded value is the
literal string `${file:Q}` and the listener is invoked exactly once (for
`P`).  The conclusion holds for every filesystem agreeing with `.ok b` at
`P`, whatever the file at `Q` holds: the file at `Q` is never read. -/
theorem C9_single_pass (fs : FS) (sh : StrShape) (P Q : Str) (b : Bytes)
    (hread : fs P = .ok b) (hutf : utf8Decode b = some (refStr Q)) :
    decodeWith fs .build (.strD sh (refStr P)) =
      (.ok (.strV .owned (refStr Q)), [⟨P, .ok b⟩]) := by
  simp [decodeWith, expand_str, matchRef_refStr, hread, hutf]

/-- Witness for C9: `/tmp/ref` holds the text `${file:/q}`; the decoded
value is that literal string and only `/tmp/ref` is notified. -/
theorem C9_single_pass_witness :
    fsW "/tmp/ref".toList = .ok refQBytes ∧
    utf8Decode refQBytes = some (refStr "/q".toList) ∧
    decodeWith fsW .build (.strD .borrowed (refStr "/tmp/ref".toList)) =
      (.ok (.strV .owned (refStr "/q".toList)), [⟨"/tmp/ref".toList, .ok refQBytes⟩]) :=
  ⟨rfl, by decide,
    C9_single_pass fsW .borrowed "/tmp/ref".toList "/q".toList refQBytes rfl
      (by decide)⟩

/-- C10: `deserialize_ignored_any` is expanded by the same
`forward_deserialize!` as every other operation, so a matched reference
whose value the target ignores (`ignore` mode, serde's `IgnoredAny`
downstream) is processed identically to `build` mode except for the final
value: the file is read, the listener is invoked exactly once with path
`P` and the read result, and a read or conversion failure aborts the
decode with the same error. -/
theorem C10_ignored_any (fs : FS) (sh : StrShape) (P : Str) :
    decodeWith fs .ignore (.strD sh (refStr P)) =
      (Except.map (fun _ => Value.ignoredV)
        (decodeWith fs .build (.strD sh (refStr P))).1,
       (decodeWith fs .build (.strD sh (refStr P))).2) ∧
    (decodeWith fs .ignore (.strD sh (refStr P))).2 = [⟨P, fs P⟩] := by
  cases hfs : fs P with
  | ok contents =>
    cases hu : utf8Decode contents <;>
      simp [decodeWith, expand_str, matchRef_refStr, hfs, hu, Except.map, Mode.out]
  | err e =>
    simp [decodeWith, expand_str, matchRef_refStr, hfs, Except.map]

end SerdeFileValue
